import Mathlib

/-!
Verification development for the hookmachine durable task queue.

The JavaScript sources are shallowly embedded:

* `lib/errors/*` become the `QErr` error kinds;
* the completion bookkeeping of `TaskQueue.prototype.runTask`
  (`lib/filequeue.js`) becomes the pure function `applyWorkerOutcome`;
* `TaskQueue.prototype.saveTaskToFolder` / `removeTaskFromFolder` become pure
  operations on a bucket modelled as a list of job records (the filesystem
  directory, keyed by `task.id`); an `unlink` of a missing file fails, as the
  POSIX call does;
* the in-process mutex (`lib/Mutex.js`) becomes the `Mutex` state machine;
* the file-backed mutex (`lib/FileMutex.js`) becomes the `FileMutex` state
  machine, in which the asynchronous `fs.flock` callback is a separate event,
  as it is a separate event-loop turn in Node.js;
* the event-driven queue (`push`, `checkNextTask`, `runTask` in
  `lib/filequeue.js`) becomes a small-step transition system `Step` on
  `QState`.  Each atomic step is one synchronous JavaScript turn: the code
  between two asynchronous suspension points (a flock grant, a filesystem
  callback, a `_.defer`, or the worker completion callback).  Each store
  mutation is recorded in an instrumented `log` together with the mutex
  state at the moment it happens.

Modelling conventions: uuids (job ids and the synthetic runner ids, all drawn
from `uuid.v1()` and globally unique) are modelled by a fresh-`Nat` counter;
uuid strings are never falsy so the `!task.id` guard of the folder helpers
reduces to the absence of the task argument; `params` and `result` payloads
are opaque and modelled as `Nat`; timestamps are modelled by the presence bit
`dateFinished` (only its being set is specified); the filesystem is modelled
fault-free (writes succeed; `readdir` returns insertion order; `unlink` of a
missing file errors), and `JSON.parse` of a record the queue itself wrote
succeeds and returns the written record.  The queue's serialisation mutex is
the `FileMutex` of `lib/FileMutex.js` (the `Mutex` that `lib/filequeue.js`
requires), embedded with its asynchronous grant: a lock request finding
`lockedBy` empty issues an `fs.flock` whose completion is a separate event,
so several requests racing in that window are all granted — inside the queue
exactly as on the stand-alone `FileMutex` model.
-/

/-- Error values raised by the queue code, by kind (`lib/errors/InternalError.js`,
`lib/errors/ParamError.js`). -/
inductive QErr where
  | internalError (msg : String)
  | paramError (msg : String)
deriving DecidableEq

/-- Job lifecycle status, the `status` field of a task record
(`lib/filequeue.js`). -/
inductive JobStatus where
  | pending
  | running
  | success
  | failure
deriving DecidableEq

/-- Worker failure kinds, as `runTask` classifies them
(`err instanceof ParamError`, `err instanceof ProxyError`, anything else). -/
inductive WorkerErr where
  | param (msg : String)
  | proxy (msg : String)
  | other (msg : String)
deriving DecidableEq

/-- Model of `err.toString()` for the error classes of `lib/errors`: the
class `name` field followed by the message. -/
def WorkerErr.str : WorkerErr → String
  | .param msg => "parameter error: " ++ msg
  | .proxy msg => "proxy error: " ++ msg
  | .other msg => "internal error: " ++ msg

/-- A task record, as created by `TaskQueue.prototype.push` and enriched by
`checkNextTask` / `runTask`.  `dateCreated` is omitted (no claim mentions
it); `dateFinished` is modelled by its presence bit. -/
structure Job where
  id : Nat
  params : Nat
  status : JobStatus
  error : Option String := none
  errorCode : Option Nat := none
  result : Option Nat := none
  dateFinished : Bool := false
deriving DecidableEq

/-- Outcome handed by the Worker to its completion callback
(`worker(task.params, function (err, result) ...)`): an error, or an
optional result value (`if (result) task.result = result`). -/
abbrev WOutcome := Except WorkerErr (Option Nat)

/-- Completion bookkeeping applied to a task when the worker calls back
(`lib/filequeue.js`, `runTask`): on error the task is marked `failure` with
the stringified error and a coarse `errorCode` (`ParamError` 400,
`ProxyError` 503, anything else 500); on success it is marked `success` and
the result is attached when the worker returned one; `dateFinished` is set
in all cases. -/
def applyWorkerOutcome (task : Job) (out : WOutcome) : Job :=
  match out with
  | .error e =>
      { task with
        status := .failure
        error := some e.str
        errorCode := some (match e with
          | .param _ => 400
          | .proxy _ => 503
          | .other _ => 500)
        dateFinished := true }
  | .ok result =>
      { task with
        status := .success
        result := match result with
          | some r => some r
          | none => task.result
        dateFinished := true }

/-- Replace-or-append write of a record into a bucket directory, the effect
of `fs.writeFile(folder/task.id + ".json", ...)`: overwrites the record with
the same id if present, creates it otherwise. -/
def saveJob (bucket : List Job) (j : Job) : List Job :=
  if bucket.any (fun x => x.id == j.id) then
    bucket.map (fun x => if x.id == j.id then j else x)
  else bucket ++ [j]

/-- `TaskQueue.prototype.saveTaskToFolder`: a missing task argument is a
silent no-op; otherwise the record is written (write faults are outside the
fault-free filesystem model). -/
def saveTaskToFolder (bucket : List Job) (task : Option Job) : List Job :=
  match task with
  | none => bucket
  | some j => saveJob bucket j

/-- `TaskQueue.prototype.removeTaskFromFolder`: a missing task argument is a
silent no-op; otherwise `fs.unlink` is called, which fails when no record
with that id exists in the bucket, and the failure is surfaced as an
`InternalError` (with the message the source uses on this path). -/
def removeTaskFromFolder (bucket : List Job) (task : Option Job) :
    Option QErr × List Job :=
  match task with
  | none => (none, bucket)
  | some j =>
    if bucket.any (fun x => x.id == j.id) then
      (none, bucket.filter (fun x => !(x.id == j.id)))
    else
      (some (QErr.internalError "Could not save task to file"), bucket)

/-! ## The in-process mutex (`lib/Mutex.js`)

State: the `lockedBy` owner field and the FIFO `queue` of waiting requests
(each waiter's callback is keyed by its id, so the queue is modelled as the
list of waiting ids in arrival order). -/

/-- State of the in-process mutex of `lib/Mutex.js`. -/
structure Mutex where
  lockedBy : Option String
  queue : List String
deriving DecidableEq

/-- `Mutex.prototype.lock`: when the mutex is held (by anyone, the caller
included) the request is appended to the queue and the call returns; when it
is free, the caller becomes the owner and its callback is scheduled.  The
returned boolean tells whether the request was granted by this call (the
callback was scheduled) rather than queued. -/
def Mutex.lock (m : Mutex) (id : String) : Mutex × Bool :=
  if m.lockedBy.isSome then ({ m with queue := m.queue ++ [id] }, false)
  else ({ m with lockedBy := some id }, true)

/-- `Mutex.prototype.unlock`: throws an `InternalError` (returned here as a
value, with the state unchanged, since the throw happens before any
mutation) unless the caller is the current owner; otherwise releases the
mutex and, in the same synchronous turn, grants it to the earliest queued
waiter if there is one. -/
def Mutex.unlock (m : Mutex) (id : String) : Option QErr × Mutex :=
  if m.lockedBy ≠ some id then
    (some (QErr.internalError
      "Mutex has been locked by someone else and cannot be unlocked"), m)
  else
    match m.queue with
    | [] => (none, { lockedBy := none, queue := [] })
    | next :: rest => (none, { lockedBy := some next, queue := rest })

/-! ## The file-backed mutex (`lib/FileMutex.js`)

Same structure as `Mutex`, except that a request finding `lockedBy` empty
does not take ownership synchronously: it issues an asynchronous
`fs.flock(fd, 'ex', cb)` and only the callback sets `lockedBy` and runs the
caller's continuation.  The flock request and its completion are therefore
two separate events.  `flock` on the file descriptor the process has already
locked succeeds (same open file description), so every issued flock request
may complete successfully.  `holders` tracks the ids whose lock callbacks
have been granted and that have not yet unlocked — the critical sections
currently active. -/

/-- State of the file mutex of `lib/FileMutex.js`. -/
structure FileMutex where
  fdOpen : Bool
  lockedBy : Option String
  queue : List String
  flockPending : List String
  holders : List String
deriving DecidableEq

/-- The state of a freshly constructed `FileMutex`. -/
def FileMutex.init : FileMutex :=
  { fdOpen := false, lockedBy := none, queue := [], flockPending := [],
    holders := [] }

/-- `Mutex.prototype.lock` of `lib/FileMutex.js`, the synchronous part: if
`lockedBy` is set the request is queued; otherwise the lock file is opened
if needed and an asynchronous flock request is issued. -/
def FileMutex.lockReq (m : FileMutex) (id : String) : FileMutex :=
  if m.lockedBy.isSome then { m with queue := m.queue ++ [id] }
  else { m with fdOpen := true, flockPending := m.flockPending ++ [id] }

/-- Completion of an issued flock request (the `fs.flock` callback of
`lib/FileMutex.js`): on error the request is re-queued; on success
`lockedBy` is overwritten with this requester's id and its continuation runs
— it becomes an active holder. -/
def FileMutex.flockDone (m : FileMutex) (id : String) (err : Bool) :
    FileMutex :=
  if id ∈ m.flockPending then
    if err then
      { m with flockPending := m.flockPending.erase id,
               queue := m.queue ++ [id] }
    else
      { m with flockPending := m.flockPending.erase id,
               lockedBy := some id, holders := m.holders ++ [id] }
  else m

/-- `Mutex.prototype.unlock` of `lib/FileMutex.js`: throws an
`InternalError` (returned as a value, state unchanged) unless the caller is
the current owner; otherwise releases the file lock (`flockSync(fd, 'un')`,
errors swallowed) and, in the same synchronous turn, hands the mutex to the
earliest queued waiter if there is one (that waiter's callback is scheduled,
so it becomes an active holder). -/
def FileMutex.unlock (m : FileMutex) (id : String) :
    Option QErr × FileMutex :=
  if m.lockedBy ≠ some id then
    (some (QErr.internalError
      "Mutex has been locked by someone else and cannot be unlocked"), m)
  else
    match m.queue with
    | [] => (none, { m with lockedBy := none,
                            holders := m.holders.erase id })
    | next :: rest =>
        (none, { m with lockedBy := some next, queue := rest,
                        holders := (m.holders.erase id) ++ [next] })

/-- Events of the file-mutex model: a lock request, the completion of an
issued flock request, and an unlock request. -/
inductive FMEvent where
  | lockReq (id : String)
  | flockDone (id : String) (err : Bool)
  | unlockReq (id : String)

/-- One event of the file-mutex model. -/
def FileMutex.step (m : FileMutex) (e : FMEvent) : FileMutex :=
  match e with
  | .lockReq id => m.lockReq id
  | .flockDone id err => m.flockDone id err
  | .unlockReq id => (m.unlock id).2

/-- A sequence of events of the file-mutex model. -/
def FileMutex.run (m : FileMutex) (es : List FMEvent) : FileMutex :=
  es.foldl FileMutex.step m

/-! ## The task queue (`lib/filequeue.js`) as a small-step system

In-flight operations are continuations (`Th`), one constructor per
synchronous turn of the corresponding callback chain:

* `push` (after its synchronous prefix — validation, task creation, lock
  request): `pushSaveId` (lock granted; write the record to the `id`
  folder), `pushSavePending` (write to `pending`, then in the same turn
  unlock, answer the caller and `_.defer` a `checkNextTask`);
* `checkNextTask`: `checkEntry` (the deferred invocation: make a runner id,
  test the concurrency cap, request the lock), `checkLocked` (lock granted;
  `readdir` the pending bucket, pick the first record, read and parse it,
  push it onto `runningTasks`, set `status = "running"` and write it to the
  `id` folder — `readdir`/`readFile` are suspension points, but the first
  shared-state write of this span is its last action, so the span is one
  atomic step), `checkSaveRunning` (write to `running`),
  `checkRemovePending` (remove from `pending`; then in the same turn unlock
  and `_.defer` `runTask` — or, if the remove failed, just unlock and
  stop);
* `runTask`: `workerWait` (worker invoked, waiting for its completion
  callback; the callback turn applies `applyWorkerOutcome`, removes the
  task from `runningTasks` and writes the terminal record to the `id`
  folder), `runRemoveRunning` (remove from `running`, then `_.defer`
  another `checkNextTask`; a removal failure is logged and the deferral
  still happens).

The serialisation mutex is the `FileMutex` of `lib/FileMutex.js` (the
`Mutex` that `lib/filequeue.js` requires), embedded faithfully: a lock
request finding `lockedBy` empty issues an asynchronous flock, and only the
flock callback — a separate turn, the `Step.flock` event — overwrites
`lockedBy` and schedules the continuation.  `holders` instruments the lock
identities that have been granted and have not released.  An unlock by a
caller that is no longer `lockedBy` — possible once grants have raced —
throws, and the rest of that synchronous turn, including its `_.defer`
calls, never runs. -/

/-- An in-flight continuation of the queue, named by its next action. -/
inductive Th where
  | pushSaveId (j : Job)
  | pushSavePending (j : Job)
  | checkEntry
  | checkLocked (r : Nat)
  | checkSaveRunning (r : Nat) (j : Job)
  | checkRemovePending (r : Nat) (j : Job)
  | workerWait (j : Job)
  | runRemoveRunning (j : Job)
deriving DecidableEq

/-- Which public operation a store mutation belongs to. -/
inductive OpKind where
  | pushOp
  | checkOp
  | runOp
deriving DecidableEq

/-- The three on-disk buckets (`id`, `pending`, `running` folders). -/
inductive BucketName where
  | idFolder
  | pendingFolder
  | runningFolder
deriving DecidableEq

/-- One store mutation, as recorded by the instrumented semantics: which
operation performed it, which bucket it touched, whether it was a removal,
the job id and the status carried by the written record, plus the lock
instrumentation: `owner` is the lock identity under which the mutating
operation runs (the task id for a push, the synthetic runner id for a
dequeue, nothing for `runTask`, which never acquires the Lock); `ownerHeld`
records whether that identity was among the granted, not-yet-released
holders at the moment of the mutation; `lockHeld` records the mutex's
`lockedBy` field at that moment. -/
structure Event where
  op : OpKind
  bucket : BucketName
  isRemove : Bool
  jobId : Nat
  written : JobStatus
  owner : Option Nat
  ownerHeld : Bool
  lockHeld : Option Nat
deriving DecidableEq

/-- Global state of one `TaskQueue` process: the three on-disk buckets, the
in-memory `runningTasks` list, the serialisation mutex (`lockedBy` owner
field, FIFO `lockQueue` of waiting continuations, `flockPending` issued
flock requests whose callbacks have not yet fired, and the granted
not-yet-released `holders`), the pool of ready continuations, the uuid
counter, the `maxItems` option (`-1` when undefined; a cap only when
positive) and the mutation log. -/
structure QState where
  idxB : List Job
  pendingB : List Job
  runningB : List Job
  runningTasks : List Job
  lockedBy : Option Nat
  lockQueue : List (Nat × Th)
  flockPending : List (Nat × Th)
  holders : List Nat
  threads : List Th
  nextId : Nat
  maxItems : Int
  log : List Event
deriving DecidableEq

/-- `mutex.lock(o, cont)` as the queue calls it (`FileMutex.prototype.lock`):
if `lockedBy` is set the request queues in FIFO order; otherwise an
asynchronous flock request is issued — the grant happens only when its
callback fires (the `Step.flock` event), never synchronously. -/
def reqLock (o : Nat) (cont : Th) (s : QState) : QState :=
  if s.lockedBy.isSome then { s with lockQueue := s.lockQueue ++ [(o, cont)] }
  else { s with flockPending := s.flockPending ++ [(o, cont)] }

/-- Completion of the `i`-th issued flock request (the `fs.flock` callback
of `FileMutex.prototype.lock`; callbacks may fire in any order): on success
`lockedBy` is overwritten with the requester's identity, that identity
becomes a holder and the continuation is scheduled; on error the request is
re-queued.  An out-of-range index is a no-op. -/
def flockStep (i : Nat) (err : Bool) (s : QState) : QState :=
  if h : i < s.flockPending.length then
    let pr := s.flockPending[i]
    let s1 : QState := { s with
      flockPending := s.flockPending.take i ++ s.flockPending.drop (i + 1) }
    if err then { s1 with lockQueue := s1.lockQueue ++ [pr] }
    else { s1 with lockedBy := some pr.1, holders := s1.holders ++ [pr.1],
                   threads := s1.threads ++ [pr.2] }
  else s

/-- `mutex.unlock(o)` as the queue calls it, followed in the same
synchronous turn by the given deferrals (the `_.defer` calls that the source
places after the unlock): when the caller is still the current `lockedBy`,
it stops being a holder and the earliest queued waiter (if any) is granted
ownership within the same turn; when it is not — which the flock-window
race makes possible — `unlock` throws, and the rest of the turn (the
deferrals) never runs. -/
def unlockQ (o : Nat) (spawn : List Th) (s : QState) : QState :=
  if s.lockedBy = some o then
    match s.lockQueue with
    | [] =>
        { s with lockedBy := none, holders := s.holders.erase o,
                 threads := s.threads ++ spawn }
    | (o2, cont) :: rest =>
        { s with lockedBy := some o2, lockQueue := rest,
                 holders := s.holders.erase o ++ [o2],
                 threads := (s.threads ++ spawn) ++ [cont] }
  else s

/-- Whether the given lock identity is currently among the granted,
not-yet-released holders (no identity at all is never a holder). -/
def heldNow (s : QState) (o : Option Nat) : Bool :=
  match o with
  | some x => decide (x ∈ s.holders)
  | none => false

/-- The synchronous prefix of `TaskQueue.prototype.push` with a present
`params`: create the task (fresh time-ordered uuid, `status = "pending"`)
and request the lock under the new task's id. -/
def doPush (p : Nat) (s : QState) : QState :=
  reqLock s.nextId
    (Th.pushSaveId { id := s.nextId, params := p, status := .pending })
    { s with nextId := s.nextId + 1 }

/-- `TaskQueue.prototype.push`: an absent `params` throws a `ParamError`
synchronously, before any task is created or any state touched; otherwise
the push proceeds (`doPush`). -/
def pushCall (params : Option Nat) (s : QState) : Option QErr × QState :=
  match params with
  | none => (some (QErr.paramError "Invalid empty build task received"), s)
  | some p => (none, doPush p s)

/-- One synchronous turn of the continuation `th`.  `out` is the worker's
completion outcome and is consulted only by `workerWait`. -/
def runTh (th : Th) (out : WOutcome) (s : QState) : QState :=
  match th with
  | .pushSaveId j =>
      { s with idxB := saveJob s.idxB j,
               log := s.log ++
                 [⟨.pushOp, .idFolder, false, j.id, j.status,
                   some j.id, heldNow s (some j.id), s.lockedBy⟩],
               threads := s.threads ++ [.pushSavePending j] }
  | .pushSavePending j =>
      unlockQ j.id [Th.checkEntry]
        { s with pendingB := saveJob s.pendingB j,
                 log := s.log ++
                   [⟨.pushOp, .pendingFolder, false, j.id, j.status,
                     some j.id, heldNow s (some j.id), s.lockedBy⟩] }
  | .checkEntry =>
      let r := s.nextId
      let s1 : QState := { s with nextId := s.nextId + 1 }
      if 0 < s.maxItems ∧ s.maxItems ≤ (s.runningTasks.length : Int) then s1
      else reqLock r (.checkLocked r) s1
  | .checkLocked r =>
      match s.pendingB with
      | [] => unlockQ r [] s
      | j :: _ =>
          { s with runningTasks := s.runningTasks ++
                     [{ j with status := JobStatus.running }],
                   idxB := saveJob s.idxB { j with status := JobStatus.running },
                   log := s.log ++
                     [⟨.checkOp, .idFolder, false, j.id, JobStatus.running,
                       some r, heldNow s (some r), s.lockedBy⟩],
                   threads := s.threads ++
                     [.checkSaveRunning r { j with status := JobStatus.running }] }
  | .checkSaveRunning r j =>
      { s with runningB := saveJob s.runningB j,
               log := s.log ++
                 [⟨.checkOp, .runningFolder, false, j.id, j.status,
                   some r, heldNow s (some r), s.lockedBy⟩],
               threads := s.threads ++ [.checkRemovePending r j] }
  | .checkRemovePending r j =>
      match removeTaskFromFolder s.pendingB (some j) with
      | (none, pb) =>
          unlockQ r [Th.workerWait j]
            { s with pendingB := pb,
                     log := s.log ++
                       [⟨.checkOp, .pendingFolder, true, j.id, j.status,
                         some r, heldNow s (some r), s.lockedBy⟩] }
      | (some _, _) => unlockQ r [] s
  | .workerWait j =>
      { s with runningTasks :=
                 s.runningTasks.filter (fun x => !(x.id == j.id)),
               idxB := saveJob s.idxB (applyWorkerOutcome j out),
               log := s.log ++
                 [⟨.runOp, .idFolder, false, (applyWorkerOutcome j out).id,
                   (applyWorkerOutcome j out).status,
                   none, heldNow s none, s.lockedBy⟩],
               threads := s.threads ++
                 [.runRemoveRunning (applyWorkerOutcome j out)] }
  | .runRemoveRunning j =>
      match removeTaskFromFolder s.runningB (some j) with
      | (none, rb) =>
          { s with runningB := rb,
                   log := s.log ++
                     [⟨.runOp, .runningFolder, true, j.id, j.status,
                       none, heldNow s none, s.lockedBy⟩],
                   threads := s.threads ++ [.checkEntry] }
      | (some _, _) => { s with threads := s.threads ++ [.checkEntry] }

/-- The interleaving semantics: at any time a producer may call `push` with
some (present) params, any issued flock request may complete (in any order,
with or without an error), or the event loop may run any ready continuation
(removing it from the pool and running its turn).  Worker outcomes are
chosen by the environment. -/
inductive Step : QState → QState → Prop where
  | push (p : Nat) (s : QState) : Step s (doPush p s)
  | flock (i : Nat) (err : Bool) (s : QState) : Step s (flockStep i err s)
  | run (s : QState) (t1 t2 : List Th) (th : Th) (out : WOutcome)
      (h : s.threads = t1 ++ th :: t2) :
      Step s (runTh th out { s with threads := t1 ++ t2 })

/-- The state of a freshly constructed, initialised `TaskQueue`: empty
buckets, free mutex, and the one `checkNextTask` scheduled by `start()`. -/
def initQ (m : Int) : QState :=
  { idxB := [], pendingB := [], runningB := [], runningTasks := [],
    lockedBy := none, lockQueue := [], flockPending := [], holders := [],
    threads := [Th.checkEntry], nextId := 1, maxItems := m, log := [] }

/-- Reachability from the initial state with `maxItems = m`. -/
def Reaches (m : Int) (s : QState) : Prop :=
  Relation.ReflTransGen Step (initQ m) s

/-- A concrete schedule entry: a push arrival, the completion of the flock
request at a given index, or running the ready continuation at a given
index with a given worker outcome. -/
inductive Cmd where
  | pushC (p : Nat)
  | flockC (i : Nat) (err : Bool)
  | runC (i : Nat) (out : WOutcome)

/-- Execute one schedule entry (out-of-range indices are no-ops). -/
def execCmd (s : QState) (c : Cmd) : QState :=
  match c with
  | .pushC p => doPush p s
  | .flockC i err => flockStep i err s
  | .runC i out =>
      if h : i < s.threads.length then
        runTh s.threads[i] out
          { s with threads := s.threads.take i ++ s.threads.drop (i + 1) }
      else s

/-- Execute a whole concrete schedule. -/
def execCmds (s : QState) (cs : List Cmd) : QState := cs.foldl execCmd s

/-! ## Instrumentation views and the lock invariant -/

/-- The mutex identity a continuation holds (or, while queued or waiting on
its flock callback, has requested): the task id for a push, the synthetic
runner id for a dequeue.  `runTask` continuations hold nothing. -/
def Th.lockId : Th → Option Nat
  | .pushSaveId j => some j.id
  | .pushSavePending j => some j.id
  | .checkEntry => none
  | .checkLocked r => some r
  | .checkSaveRunning r _ => some r
  | .checkRemovePending r _ => some r
  | .workerWait _ => none
  | .runRemoveRunning _ => none

/-- All live continuations: the ready pool plus those parked in the mutex
wait queue plus those waiting on a flock callback. -/
def allCont (s : QState) : List Th :=
  s.threads ++ (s.lockQueue ++ s.flockPending).map Prod.snd

/-- Whether an event is a write of job `id` into the `id` folder (the
authoritative index). -/
def isIdxWrite (id : Nat) (e : Event) : Bool :=
  decide (e.bucket = BucketName.idFolder ∧ e.isRemove = false ∧ e.jobId = id)

/-- The chronological sequence of statuses written to job `id`'s index
record — the status history the job takes, as observed through the
authoritative `id` folder. -/
def idxWrites (lg : List Event) (id : Nat) : List JobStatus :=
  (lg.filter (isIdxWrite id)).map Event.written

/-- A status history allowed by the lifecycle: a prefix of
`pending -> running -> (success | failure)`. -/
def okHist : List JobStatus → Bool
  | [] => true
  | [.pending] => true
  | [.pending, .running] => true
  | [.pending, .running, .success] => true
  | [.pending, .running, .failure] => true
  | _ => false

/-- The lock-discipline invariant of the queue semantics: every live
continuation's requested lock identity is fresh below the uuid counter and
is claimed by at most one live continuation; queued and flock-waiting
entries are keyed by their continuation's identity; every *ready*
continuation in a post-grant phase is a granted, not-yet-released holder;
and every logged `push`/`checkNextTask` mutation carries its operation's
lock identity, which was a holder at the moment of the write. -/
structure LockInv (s : QState) : Prop where
  freshLock : ∀ th ∈ allCont s, ∀ o, Th.lockId th = some o → o < s.nextId
  lockNodup : ((allCont s).filterMap Th.lockId).Nodup
  queueWF : ∀ pr ∈ s.lockQueue ++ s.flockPending, Th.lockId pr.2 = some pr.1
  holdersWF : ∀ th ∈ s.threads, ∀ o, Th.lockId th = some o → o ∈ s.holders
  eventsOk : ∀ e ∈ s.log, e.op = OpKind.pushOp ∨ e.op = OpKind.checkOp →
    e.owner.isSome = true ∧ e.ownerHeld = true

/-- Schedule exhibiting the concurrency-cap race: two pushes complete, both
deferred `checkNextTask` invocations pass the cap test while nothing runs;
the first is granted its flock, the second's request queues behind it and
is handed the lock by the first's unlock — and then each dequeues one job,
serialised by the mutex but without re-testing the cap after its grant. -/
def c1Trace : List Cmd :=
  [ .pushC 7, .flockC 0 false, .runC 1 (.ok none), .runC 1 (.ok none),
    .pushC 8, .flockC 0 false, .runC 2 (.ok none), .runC 2 (.ok none),
    .runC 0 (.ok none), .flockC 0 false, .runC 0 (.ok none),
    .runC 1 (.ok none), .runC 1 (.ok none), .runC 1 (.ok none),
    .runC 2 (.ok none) ]

/-- Schedule driving one pushed job through its whole lifecycle (each lock
grant is an explicit flock completion); the final entry is the
worker-completion turn of `runTask`, which runs while the mutex is free. -/
def c2Trace : List Cmd :=
  [ .pushC 7, .flockC 0 false, .runC 1 (.ok none), .runC 1 (.ok none),
    .runC 0 (.ok none), .flockC 0 false,
    .runC 1 (.ok none), .runC 1 (.ok none), .runC 1 (.ok none),
    .runC 1 (.ok none) ]

/-- Schedule exhibiting the flock-window double grant inside the queue: one
job is pushed to completion; two deferred `checkNextTask` invocations both
request the mutex while `lockedBy` is still empty (the first flock callback
has not fired), both flock callbacks then succeed, and both granted
criticals dequeue the head of the pending bucket — the same job. -/
def c3Trace : List Cmd :=
  [ .pushC 7, .flockC 0 false, .runC 1 (.ok none), .runC 1 (.ok none),
    .runC 0 (.ok none), .runC 0 (.ok none),
    .flockC 0 false, .flockC 0 false,
    .runC 0 (.ok none), .runC 0 (.ok none) ]

/-! ## The schedule driver refines the step relation -/

/-- Every schedule entry is a (possibly empty) sequence of `Step`s. -/
theorem execCmd_step (s : QState) (c : Cmd) :
    Relation.ReflTransGen Step s (execCmd s c) := by
  cases c with
  | pushC p => exact Relation.ReflTransGen.single (Step.push p s)
  | flockC i err => exact Relation.ReflTransGen.single (Step.flock i err s)
  | runC i out =>
      by_cases h : i < s.threads.length
      · have hsplit : s.threads
            = s.threads.take i ++ s.threads[i] :: s.threads.drop (i + 1) := by
          conv_lhs => rw [← List.take_append_drop i s.threads]
          rw [List.drop_eq_getElem_cons h]
        have := Step.run s (s.threads.take i) (s.threads.drop (i + 1))
          s.threads[i] out hsplit
        simp only [execCmd, h, dif_pos]
        exact Relation.ReflTransGen.single this
      · simp only [execCmd, h, dif_neg, not_false_iff]
        exact Relation.ReflTransGen.refl

/-- Every concrete schedule yields a reachable state. -/
theorem execCmds_reach (s : QState) (cs : List Cmd) :
    Relation.ReflTransGen Step s (execCmds s cs) := by
  induction cs generalizing s with
  | nil => exact Relation.ReflTransGen.refl
  | cons c cs ih =>
      exact Relation.ReflTransGen.trans (execCmd_step s c) (ih (execCmd s c))

/-! ## Helper lemmas for the lock invariant -/

/-- Dropping the middle element preserves `Nodup`. -/
theorem nodup_drop_middle {α : Type} (X Y : List α) (a : α)
    (h : (X ++ a :: Y).Nodup) : (X ++ Y).Nodup := by
  have := (@List.perm_middle _ a X Y).nodup h
  exact (List.nodup_cons.1 this).2

/-- Inserting a fresh middle element preserves `Nodup`. -/
theorem nodup_insert_middle {α : Type} (X Y : List α) (a : α)
    (h : (X ++ Y).Nodup) (ha : a ∉ X ++ Y) : (X ++ a :: Y).Nodup := by
  rw [List.nodup_middle]
  exact List.nodup_cons.2 ⟨ha, h⟩

/-- Appending a fresh element preserves `Nodup`. -/
theorem nodup_snoc {α : Type} (l : List α) (a : α)
    (h : l.Nodup) (ha : a ∉ l) : (l ++ [a]).Nodup := by
  have h2 : (l ++ ([] : List α)).Nodup := by simpa using h
  have ha2 : a ∉ l ++ ([] : List α) := by simpa using ha
  exact nodup_insert_middle l [] a h2 ha2

/-- Re-slotting the distinguished element across a different split of the
same surrounding elements preserves `Nodup`. -/
theorem nodup_resplit {α : Type} {X Y X2 Y2 : List α} (a : α)
    (h : (X ++ a :: Y).Nodup) (heq : X ++ Y = X2 ++ Y2) :
    (X2 ++ a :: Y2).Nodup := by
  have h1 := (@List.perm_middle _ a X Y).nodup h
  have h2 : (a :: (X2 ++ Y2)).Nodup := by rw [← heq]; exact h1
  exact (@List.perm_middle _ a X2 Y2).symm.nodup h2

/-- In a list whose `filterMap` image is `Nodup`, no element besides the
distinguished occurrence maps to the same value. -/
theorem nodup_excl {α β : Type} {f : α → Option β} {t1 t2 : List α}
    {x : α} {v : β}
    (hnd : ((t1 ++ x :: t2).filterMap f).Nodup) (hx : f x = some v)
    {y : α} (hy : y ∈ t1 ++ t2) (hfy : f y = some v) : False := by
  rw [List.filterMap_append, List.filterMap_cons_some hx,
    List.nodup_middle] at hnd
  have : v ∈ (t1 ++ t2).filterMap f :=
    List.mem_filterMap.2 ⟨y, hy, hfy⟩
  rw [List.filterMap_append] at this
  exact absurd this (List.nodup_cons.1 hnd).1

/-- Split view of the live continuations when the ready pool is split. -/
theorem allCont_split {s : QState} {t1 t2 : List Th} {th : Th}
    (hTh : s.threads = t1 ++ th :: t2) :
    allCont s
      = t1 ++ th :: (t2 ++ (s.lockQueue ++ s.flockPending).map Prod.snd) := by
  simp [allCont, hTh]

/-- A continuation in the split context is in the ready pool. -/
theorem mem_threads_of_split {t1 t2 : List Th} {th y : Th} {s : QState}
    (hTh : s.threads = t1 ++ th :: t2) (hy : y ∈ t1 ++ t2) :
    y ∈ s.threads := by
  rw [hTh]
  rcases List.mem_append.1 hy with h | h
  · exact List.mem_append.2 (Or.inl h)
  · exact List.mem_append.2 (Or.inr (List.mem_cons_of_mem _ h))

/-- The stepping continuation is in the ready pool. -/
theorem stepper_mem {t1 t2 : List Th} {th : Th} {s : QState}
    (hTh : s.threads = t1 ++ th :: t2) : th ∈ s.threads := by
  rw [hTh]
  exact List.mem_append.2 (Or.inr (List.mem_cons_self _ _))

/-- The stepping continuation is live. -/
theorem stepper_mem_allCont {t1 t2 : List Th} {th : Th} {s : QState}
    (hTh : s.threads = t1 ++ th :: t2) : th ∈ allCont s := by
  rw [allCont_split hTh]
  exact List.mem_append.2 (Or.inr (List.mem_cons_self _ _))

/-- A continuation of the surrounding context (ready, queued or
flock-waiting) is live. -/
theorem ctx_mem_allCont {t1 t2 : List Th} {th y : Th} {s : QState}
    (hTh : s.threads = t1 ++ th :: t2)
    (hy : y ∈ t1 ++ (t2 ++ (s.lockQueue ++ s.flockPending).map Prod.snd)) :
    y ∈ allCont s := by
  rw [allCont_split hTh]
  rcases List.mem_append.1 hy with h | h
  · exact List.mem_append.2 (Or.inl h)
  · exact List.mem_append.2 (Or.inr (List.mem_cons_of_mem _ h))

/-- A ready continuation is live. -/
theorem threads_mem_allCont {y : Th} {s : QState}
    (hy : y ∈ s.threads) : y ∈ allCont s :=
  List.mem_append.2 (Or.inl hy)

/-- A queued or flock-waiting continuation is live. -/
theorem qf_mem_allCont {y : Th} {s : QState}
    (hy : y ∈ (s.lockQueue ++ s.flockPending).map Prod.snd) :
    y ∈ allCont s :=
  List.mem_append.2 (Or.inr hy)

/-- No live continuation other than the stepper claims the stepper's lock
identity. -/
theorem excl_lock {s : QState} {t1 t2 : List Th} {th : Th} {v : Nat}
    (hi : LockInv s) (hTh : s.threads = t1 ++ th :: t2)
    (hv : Th.lockId th = some v) {y : Th}
    (hy : y ∈ t1 ++ (t2 ++ (s.lockQueue ++ s.flockPending).map Prod.snd)) :
    Th.lockId y ≠ some v := by
  intro hfy
  have hnd := hi.lockNodup
  rw [allCont_split hTh] at hnd
  exact nodup_excl hnd hv hy hfy

/-- While a lock-holding continuation steps, no other ready continuation
claims its lock identity. -/
theorem ctx_lockId_ne {s : QState} {t1 t2 : List Th} {th : Th} {v : Nat}
    (hi : LockInv s) (hTh : s.threads = t1 ++ th :: t2)
    (hv : Th.lockId th = some v) {y : Th} (hy : y ∈ t1 ++ t2) :
    Th.lockId y ≠ some v := by
  refine excl_lock hi hTh hv ?_
  rcases List.mem_append.1 hy with h | h
  · exact List.mem_append.2 (Or.inl h)
  · exact List.mem_append.2 (Or.inr (List.mem_append.2 (Or.inl h)))

/-! ## Preservation of the lock invariant -/

/-- The initial state satisfies the lock invariant. -/
theorem lockinv_init (m : Int) : LockInv (initQ m) := by
  refine LockInv.mk ?_ ?_ ?_ ?_ ?_ <;>
    simp [initQ, allCont, Th.lockId]

/-- Bumping the uuid counter preserves the lock invariant. -/
theorem lockinv_bump (s : QState) (hi : LockInv s) :
    LockInv { s with nextId := s.nextId + 1 } := by
  refine LockInv.mk ?_ hi.lockNodup hi.queueWF hi.holdersWF hi.eventsOk
  intro th hth o hlo
  exact Nat.lt_succ_of_lt (hi.freshLock th hth o hlo)

/-- A lock request with a fresh identity preserves the lock invariant. -/
theorem lockinv_reqLock (o : Nat) (cont : Th) (s : QState) (hi : LockInv s)
    (hcont : Th.lockId cont = some o) (ho : o < s.nextId)
    (hfresh : ∀ th ∈ allCont s, Th.lockId th ≠ some o) :
    LockInv (reqLock o cont s) := by
  have hnm : o ∉ (allCont s).filterMap Th.lockId := by
    intro hm
    rcases List.mem_filterMap.1 hm with ⟨y, hy, hfy⟩
    exact hfresh y hy hfy
  have hfc : List.filterMap Th.lockId [cont] = [o] := by simp [hcont]
  unfold reqLock
  by_cases hL : s.lockedBy.isSome
  · rw [if_pos hL]
    have hAC : allCont { s with lockQueue := s.lockQueue ++ [(o, cont)] }
        = (s.threads ++ s.lockQueue.map Prod.snd)
          ++ cont :: s.flockPending.map Prod.snd := by
      simp [allCont]
    have hAC0 : allCont s
        = (s.threads ++ s.lockQueue.map Prod.snd)
          ++ s.flockPending.map Prod.snd := by
      simp [allCont]
    refine LockInv.mk ?_ ?_ ?_ hi.holdersWF hi.eventsOk
    · intro y hy o2 hlo
      rw [hAC] at hy
      rcases List.mem_append.1 hy with hy1 | hy1
      · refine hi.freshLock y ?_ o2 hlo
        rw [hAC0]
        exact List.mem_append.2 (Or.inl hy1)
      · rcases List.mem_cons.1 hy1 with hy2 | hy2
        · subst hy2
          rw [hcont] at hlo
          injection hlo with hlo2
          rw [← hlo2]
          exact ho
        · refine hi.freshLock y ?_ o2 hlo
          rw [hAC0]
          exact List.mem_append.2 (Or.inr hy2)
    · have hnd := hi.lockNodup
      rw [hAC0, List.filterMap_append] at hnd
      rw [hAC0, List.filterMap_append] at hnm
      rw [hAC, List.filterMap_append, List.filterMap_cons_some hcont]
      exact nodup_insert_middle _ _ o hnd hnm
    · intro pr hpr
      rcases List.mem_append.1 hpr with hpr1 | hpr1
      · rcases List.mem_append.1 hpr1 with hpr2 | hpr2
        · exact hi.queueWF pr (List.mem_append.2 (Or.inl hpr2))
        · rw [List.mem_singleton.1 hpr2]
          exact hcont
      · exact hi.queueWF pr (List.mem_append.2 (Or.inr hpr1))
  · rw [if_neg hL]
    have hAC : allCont { s with flockPending := s.flockPending ++ [(o, cont)] }
        = allCont s ++ [cont] := by
      simp [allCont]
    refine LockInv.mk ?_ ?_ ?_ hi.holdersWF hi.eventsOk
    · intro y hy o2 hlo
      rw [hAC] at hy
      rcases List.mem_append.1 hy with hy1 | hy1
      · exact hi.freshLock y hy1 o2 hlo
      · rw [List.mem_singleton.1 hy1] at hlo
        rw [hcont] at hlo
        injection hlo with hlo2
        rw [← hlo2]
        exact ho
    · have hnd := hi.lockNodup
      rw [hAC, List.filterMap_append, hfc]
      exact nodup_snoc _ o hnd hnm
    · intro pr hpr
      rcases List.mem_append.1 hpr with hpr1 | hpr1
      · exact hi.queueWF pr (List.mem_append.2 (Or.inl hpr1))
      · rcases List.mem_append.1 hpr1 with hpr2 | hpr2
        · exact hi.queueWF pr (List.mem_append.2 (Or.inr hpr2))
        · rw [List.mem_singleton.1 hpr2]
          exact hcont

/-- A push arrival preserves the lock invariant. -/
theorem lockinv_doPush (p : Nat) (s : QState) (hi : LockInv s) :
    LockInv (doPush p s) := by
  unfold doPush
  refine lockinv_reqLock s.nextId _ _ (lockinv_bump s hi) rfl
    (Nat.lt_succ_self _) ?_
  intro th hth hsome
  exact absurd (hi.freshLock th hth _ hsome) (lt_irrefl _)

/-- An unlock (with the deferrals of the same turn) preserves the lock
invariant, provided the deferrals claim no lock identity and no ready
continuation claims the unlocking identity. -/
theorem lockinv_unlockQ (o : Nat) (spawn : List Th) (s : QState)
    (hi : LockInv s)
    (hspawn : ∀ th ∈ spawn, Th.lockId th = none)
    (hnoth : ∀ th ∈ s.threads, Th.lockId th ≠ some o) :
    LockInv (unlockQ o spawn s) := by
  have hfsp : spawn.filterMap Th.lockId = [] :=
    List.filterMap_eq_nil_iff.2 hspawn
  unfold unlockQ
  by_cases ho : s.lockedBy = some o
  · rw [if_pos ho]
    by_cases hqn : s.lockQueue = []
    · rw [hqn]
      show LockInv
        { s with
            lockedBy := none, lockQueue := [],
            holders := s.holders.erase o,
            threads := s.threads ++ spawn }
      have hAC : allCont
          { s with
              lockedBy := none, lockQueue := [],
              holders := s.holders.erase o,
              threads := s.threads ++ spawn }
          = (s.threads ++ spawn) ++ s.flockPending.map Prod.snd := by
        simp [allCont]
      refine LockInv.mk ?_ ?_ ?_ ?_ hi.eventsOk
      · intro y hy o2 hlo
        rw [hAC] at hy
        rcases List.mem_append.1 hy with hy1 | hy1
        · rcases List.mem_append.1 hy1 with hy2 | hy2
          · exact hi.freshLock y (threads_mem_allCont hy2) o2 hlo
          · rw [hspawn y hy2] at hlo
            cases hlo
        · refine hi.freshLock y (qf_mem_allCont ?_) o2 hlo
          rw [hqn, List.nil_append]
          exact hy1
      · have hnd : ((s.threads
            ++ (s.lockQueue ++ s.flockPending).map Prod.snd).filterMap
              Th.lockId).Nodup := hi.lockNodup
        rw [hqn, List.nil_append, List.filterMap_append] at hnd
        rw [hAC, List.filterMap_append, List.filterMap_append, hfsp,
          List.append_nil]
        exact hnd
      · intro pr hpr
        have hpr2 : pr ∈ ([] : List (Nat × Th)) ++ s.flockPending := hpr
        rw [List.nil_append] at hpr2
        exact hi.queueWF pr (List.mem_append.2 (Or.inr hpr2))
      · intro y hy o2 hlo
        have hy2 : y ∈ s.threads ++ spawn := hy
        rcases List.mem_append.1 hy2 with hy3 | hy3
        · have hne : o2 ≠ o := fun hcon => hnoth y hy3 (hcon ▸ hlo)
          exact (List.mem_erase_of_ne hne).2 (hi.holdersWF y hy3 o2 hlo)
        · rw [hspawn y hy3] at hlo
          cases hlo
    · obtain ⟨⟨o2, cont⟩, rest, hq⟩ := List.exists_cons_of_ne_nil hqn
      rw [hq]
      show LockInv
        { s with
            lockedBy := some o2, lockQueue := rest,
            holders := s.holders.erase o ++ [o2],
            threads := (s.threads ++ spawn) ++ [cont] }
      have hcont : Th.lockId cont = some o2 := by
        refine hi.queueWF (o2, cont) ?_
        rw [hq]
        exact List.mem_append.2 (Or.inl (List.mem_cons_self _ _))
      have hAC : allCont
          { s with
              lockedBy := some o2, lockQueue := rest,
              holders := s.holders.erase o ++ [o2],
              threads := (s.threads ++ spawn) ++ [cont] }
          = ((s.threads ++ spawn) ++ [cont])
            ++ (rest ++ s.flockPending).map Prod.snd := by
        simp [allCont]
      have hACs : allCont s
          = s.threads ++ cont :: (rest ++ s.flockPending).map Prod.snd := by
        simp [allCont, hq]
      refine LockInv.mk ?_ ?_ ?_ ?_ hi.eventsOk
      · intro y hy o3 hlo
        rw [hAC] at hy
        rcases List.mem_append.1 hy with hy1 | hy1
        · rcases List.mem_append.1 hy1 with hy2 | hy2
          · rcases List.mem_append.1 hy2 with hy3 | hy3
            · exact hi.freshLock y (threads_mem_allCont hy3) o3 hlo
            · rw [hspawn y hy3] at hlo
              cases hlo
          · have hy4 : y = cont := List.mem_singleton.1 hy2
            subst hy4
            refine hi.freshLock y ?_ o3 hlo
            rw [hACs]
            exact List.mem_append.2 (Or.inr (List.mem_cons_self _ _))
        · refine hi.freshLock y ?_ o3 hlo
          rw [hACs]
          exact List.mem_append.2 (Or.inr (List.mem_cons_of_mem _ hy1))
      · have hnd : ((s.threads
            ++ cont :: (rest ++ s.flockPending).map Prod.snd).filterMap
              Th.lockId).Nodup := by
          rw [← hACs]
          exact hi.lockNodup
        rw [List.filterMap_append, List.filterMap_cons_some hcont] at hnd
        have hfcont : List.filterMap Th.lockId [cont] = [o2] := by
          simp [hcont]
        rw [hAC]
        simp only [List.filterMap_append]
        rw [hfsp, List.append_nil, hfcont, List.append_assoc,
          List.singleton_append]
        exact hnd
      · intro pr hpr
        have hpr2 : pr ∈ rest ++ s.flockPending := hpr
        refine hi.queueWF pr ?_
        rw [hq]
        rcases List.mem_append.1 hpr2 with h1 | h1
        · exact List.mem_append.2 (Or.inl (List.mem_cons_of_mem _ h1))
        · exact List.mem_append.2 (Or.inr h1)
      · intro y hy o3 hlo
        have hy2 : y ∈ (s.threads ++ spawn) ++ [cont] := hy
        rcases List.mem_append.1 hy2 with hy3 | hy3
        · rcases List.mem_append.1 hy3 with hy4 | hy4
          · have hne : o3 ≠ o := fun hcon => hnoth y hy4 (hcon ▸ hlo)
            exact List.mem_append.2
              (Or.inl ((List.mem_erase_of_ne hne).2
                (hi.holdersWF y hy4 o3 hlo)))
          · rw [hspawn y hy4] at hlo
            cases hlo
        · rw [List.mem_singleton.1 hy3] at hlo
          rw [hcont] at hlo
          injection hlo with h5
          rw [← h5]
          exact List.mem_append.2 (Or.inr (List.mem_singleton.2 rfl))
  · rw [if_neg ho]
    exact hi

/-- Core of the flock-completion case: the pending request `pr` is granted
(or re-queued on error), with the remaining pending requests `F1 ++ F2`. -/
theorem lockinv_flock_core (errB : Bool) (s : QState) (pr : Nat × Th)
    (F1 F2 : List (Nat × Th)) (hi : LockInv s)
    (hsplit : s.flockPending = F1 ++ pr :: F2) :
    LockInv (if errB = true then
        { s with flockPending := F1 ++ F2,
                 lockQueue := s.lockQueue ++ [pr] }
      else
        { s with flockPending := F1 ++ F2, lockedBy := some pr.1,
                 holders := s.holders ++ [pr.1],
                 threads := s.threads ++ [pr.2] }) := by
  have hmemF : pr ∈ s.lockQueue ++ s.flockPending := by
    rw [hsplit]
    exact List.mem_append.2 (Or.inr
      (List.mem_append.2 (Or.inr (List.mem_cons_self _ _))))
  have hlid : Th.lockId pr.2 = some pr.1 := hi.queueWF pr hmemF
  have hACold : allCont s
      = s.threads ++ (s.lockQueue.map Prod.snd
          ++ (F1.map Prod.snd ++ pr.2 :: F2.map Prod.snd)) := by
    simp [allCont, hsplit]
  by_cases herr : errB = true
  · rw [if_pos herr]
    have hAC : allCont
        { s with
            flockPending := F1 ++ F2,
            lockQueue := s.lockQueue ++ [pr] }
        = (s.threads ++ s.lockQueue.map Prod.snd)
          ++ pr.2 :: (F1.map Prod.snd ++ F2.map Prod.snd) := by
      simp [allCont]
    refine LockInv.mk ?_ ?_ ?_ hi.holdersWF hi.eventsOk
    · intro y hy o2 hlo
      rw [hAC] at hy
      refine hi.freshLock y ?_ o2 hlo
      rw [hACold]
      simp only [List.mem_append, List.mem_cons] at hy ⊢
      tauto
    · have hnd := hi.lockNodup
      rw [hACold] at hnd
      simp only [List.filterMap_append, List.filterMap_cons_some hlid] at hnd
      rw [← List.append_assoc, ← List.append_assoc] at hnd
      rw [hAC]
      simp only [List.filterMap_append, List.filterMap_cons_some hlid]
      exact nodup_resplit pr.1 hnd (by simp [List.append_assoc])
    · intro pr2 hpr2
      refine hi.queueWF pr2 ?_
      rw [hsplit]
      have hpr3 : pr2 ∈ (s.lockQueue ++ [pr]) ++ (F1 ++ F2) := hpr2
      simp only [List.mem_append, List.mem_cons, List.mem_singleton,
        List.not_mem_nil, or_false] at hpr3 ⊢
      tauto
  · rw [if_neg herr]
    have hAC : allCont
        { s with
            flockPending := F1 ++ F2, lockedBy := some pr.1,
            holders := s.holders ++ [pr.1],
            threads := s.threads ++ [pr.2] }
        = (s.threads ++ [pr.2])
          ++ (s.lockQueue.map Prod.snd
            ++ (F1.map Prod.snd ++ F2.map Prod.snd)) := by
      simp [allCont]
    refine LockInv.mk ?_ ?_ ?_ ?_ hi.eventsOk
    · intro y hy o2 hlo
      rw [hAC] at hy
      refine hi.freshLock y ?_ o2 hlo
      rw [hACold]
      simp only [List.mem_append, List.mem_cons, List.mem_singleton,
        List.not_mem_nil, or_false] at hy ⊢
      tauto
    · have hnd := hi.lockNodup
      rw [hACold] at hnd
      simp only [List.filterMap_append, List.filterMap_cons_some hlid] at hnd
      rw [← List.append_assoc, ← List.append_assoc] at hnd
      have hfpr : List.filterMap Th.lockId [pr.2] = [pr.1] := by
        simp [hlid]
      rw [hAC]
      simp only [List.filterMap_append]
      rw [hfpr, List.append_assoc, List.singleton_append]
      exact nodup_resplit pr.1 hnd (by simp [List.append_assoc])
    · intro pr2 hpr2
      refine hi.queueWF pr2 ?_
      rw [hsplit]
      have hpr3 : pr2 ∈ s.lockQueue ++ (F1 ++ F2) := hpr2
      simp only [List.mem_append, List.mem_cons] at hpr3 ⊢
      tauto
    · intro y hy o2 hlo
      have hy2 : y ∈ s.threads ++ [pr.2] := hy
      rcases List.mem_append.1 hy2 with hy3 | hy3
      · exact List.mem_append.2 (Or.inl (hi.holdersWF y hy3 o2 hlo))
      · rw [List.mem_singleton.1 hy3] at hlo
        rw [hlid] at hlo
        injection hlo with h5
        rw [← h5]
        exact List.mem_append.2 (Or.inr (List.mem_singleton.2 rfl))

/-- The completion of a flock request preserves the lock invariant. -/
theorem lockinv_flock (i : Nat) (err : Bool) (s : QState) (hi : LockInv s) :
    LockInv (flockStep i err s) := by
  unfold flockStep
  by_cases h : i < s.flockPending.length
  · rw [dif_pos h]
    have hsplit : s.flockPending
        = s.flockPending.take i
          ++ s.flockPending[i] :: s.flockPending.drop (i + 1) := by
      conv_lhs => rw [← List.take_append_drop i s.flockPending]
      rw [List.drop_eq_getElem_cons h]
    exact lockinv_flock_core err s (s.flockPending[i])
      (s.flockPending.take i) (s.flockPending.drop (i + 1)) hi hsplit
  · rw [dif_neg h]
    exact hi
/-- A run turn that removes the stepper, schedules the continuations `ts`
(claiming the same lock identity as the stepper), appends the events `es`,
and leaves the mutex fields unchanged, preserves the lock invariant. -/
theorem lockinv_replace {s s2 : QState} {t1 t2 : List Th} {th : Th}
    (ts : List Th) (es : List Event)
    (hi : LockInv s) (hTh : s.threads = t1 ++ th :: t2)
    (hts : ∀ y ∈ ts, Th.lockId y = Th.lockId th)
    (hfm : ts.filterMap Th.lockId = [th].filterMap Th.lockId ∨
           ts.filterMap Th.lockId = [])
    (hT : s2.threads = (t1 ++ t2) ++ ts)
    (hQ : s2.lockQueue = s.lockQueue)
    (hF : s2.flockPending = s.flockPending)
    (hH : s2.holders = s.holders)
    (hN : s.nextId ≤ s2.nextId)
    (hL : s2.log = s.log ++ es)
    (hes : ∀ e ∈ es, e.op = OpKind.pushOp ∨ e.op = OpKind.checkOp →
      e.owner.isSome = true ∧ e.ownerHeld = true) :
    LockInv s2 := by
  have hACnew : allCont s2
      = ((t1 ++ t2) ++ ts)
        ++ (s.lockQueue ++ s.flockPending).map Prod.snd := by
    unfold allCont
    rw [hT, hQ, hF]
  refine LockInv.mk ?_ ?_ ?_ ?_ ?_
  · intro y hy o hlo
    refine lt_of_lt_of_le ?_ hN
    rw [hACnew] at hy
    rcases List.mem_append.1 hy with hy1 | hy2
    · rcases List.mem_append.1 hy1 with hy3 | hy4
      · refine hi.freshLock y (ctx_mem_allCont hTh ?_) o hlo
        rcases List.mem_append.1 hy3 with hA | hA
        · exact List.mem_append.2 (Or.inl hA)
        · exact List.mem_append.2 (Or.inr (List.mem_append.2 (Or.inl hA)))
      · rw [hts y hy4] at hlo
        exact hi.freshLock th (stepper_mem_allCont hTh) o hlo
    · refine hi.freshLock y (ctx_mem_allCont hTh ?_) o hlo
      exact List.mem_append.2 (Or.inr (List.mem_append.2 (Or.inr hy2)))
  · have hnd := hi.lockNodup
    rw [allCont_split hTh] at hnd
    rw [hACnew]
    simp only [List.filterMap_append] at hnd ⊢
    cases hv : Th.lockId th with
    | none =>
        have hfm2 : ts.filterMap Th.lockId = [] := by
          rcases hfm with hA | hA
          · rw [hA]
            simp [hv]
          · exact hA
        rw [List.filterMap_cons_none hv, List.filterMap_append] at hnd
        rw [hfm2, List.append_nil, List.append_assoc]
        exact hnd
    | some v =>
        rw [List.filterMap_cons_some hv, List.filterMap_append] at hnd
        rcases hfm with hA | hA
        · have hfm2 : ts.filterMap Th.lockId = [v] := by
            rw [hA]
            simp [hv]
          rw [hfm2, List.append_assoc, List.singleton_append]
          exact nodup_resplit v hnd (List.append_assoc _ _ _).symm
        · rw [hA, List.append_nil, List.append_assoc]
          exact nodup_drop_middle _ _ v hnd
  · intro pr hpr
    rw [hQ, hF] at hpr
    exact hi.queueWF pr hpr
  · intro y hy o hlo
    rw [hT] at hy
    rw [hH]
    rcases List.mem_append.1 hy with hy1 | hy2
    · exact hi.holdersWF y (mem_threads_of_split hTh hy1) o hlo
    · rw [hts y hy2] at hlo
      exact hi.holdersWF th (stepper_mem hTh) o hlo
  · intro e he hop
    rw [hL] at he
    rcases List.mem_append.1 he with he | he
    · exact hi.eventsOk e he hop
    · exact hes e he hop

/-- One turn of `pushSaveId` preserves the lock invariant. -/
theorem lockinv_run_pushSaveId (s : QState) (t1 t2 : List Th) (j : Job)
    (out : WOutcome) (hi : LockInv s)
    (hTh : s.threads = t1 ++ Th.pushSaveId j :: t2) :
    LockInv (runTh (Th.pushSaveId j) out { s with threads := t1 ++ t2 }) := by
  have hmem : j.id ∈ s.holders :=
    hi.holdersWF _ (stepper_mem hTh) j.id rfl
  refine lockinv_replace [Th.pushSavePending j]
    [⟨.pushOp, .idFolder, false, j.id, j.status, some j.id,
      heldNow s (some j.id), s.lockedBy⟩]
    hi hTh ?_ (Or.inl rfl) rfl rfl rfl rfl (le_refl _) rfl ?_
  · intro y hy
    rw [List.mem_singleton.1 hy]
    rfl
  · intro e he hop
    rw [List.mem_singleton.1 he]
    refine ⟨rfl, ?_⟩
    show heldNow s (some j.id) = true
    simp only [heldNow]
    exact decide_eq_true hmem

/-- One turn of `pushSavePending` (write, unlock, deferral) preserves the
lock invariant. -/
theorem lockinv_run_pushSavePending (s : QState) (t1 t2 : List Th) (j : Job)
    (out : WOutcome) (hi : LockInv s)
    (hTh : s.threads = t1 ++ Th.pushSavePending j :: t2) :
    LockInv (runTh (Th.pushSavePending j) out
      { s with threads := t1 ++ t2 }) := by
  have hmem : j.id ∈ s.holders :=
    hi.holdersWF _ (stepper_mem hTh) j.id rfl
  refine lockinv_unlockQ _ _ _ ?_ ?_ ?_
  · refine lockinv_replace ([] : List Th)
      [⟨.pushOp, .pendingFolder, false, j.id, j.status, some j.id,
        heldNow s (some j.id), s.lockedBy⟩]
      hi hTh ?_ (Or.inr rfl) (List.append_nil _).symm rfl rfl rfl
      (le_refl _) rfl ?_
    · intro y hy
      exact absurd hy (List.not_mem_nil y)
    · intro e he hop
      rw [List.mem_singleton.1 he]
      refine ⟨rfl, ?_⟩
      show heldNow s (some j.id) = true
      simp only [heldNow]
      exact decide_eq_true hmem
  · intro y hy
    rw [List.mem_singleton.1 hy]
    rfl
  · intro y hy
    have hy2 : y ∈ t1 ++ t2 := hy
    exact ctx_lockId_ne hi hTh rfl hy2

/-- One turn of `checkEntry` (cap test, then lock request or bail-out)
preserves the lock invariant. -/
theorem lockinv_run_checkEntry (s : QState) (t1 t2 : List Th)
    (out : WOutcome) (hi : LockInv s)
    (hTh : s.threads = t1 ++ Th.checkEntry :: t2) :
    LockInv (runTh Th.checkEntry out { s with threads := t1 ++ t2 }) := by
  have hmid : LockInv
      { s with threads := t1 ++ t2, nextId := s.nextId + 1 } := by
    refine lockinv_replace ([] : List Th) ([] : List Event) hi hTh ?_
      (Or.inr rfl) (List.append_nil _).symm rfl rfl rfl (Nat.le_succ _)
      (List.append_nil _).symm ?_
    · intro y hy
      exact absurd hy (List.not_mem_nil y)
    · intro e he
      exact absurd he (List.not_mem_nil e)
  simp only [runTh]
  by_cases hcap : 0 < s.maxItems ∧
      s.maxItems ≤ (s.runningTasks.length : Int)
  · rw [if_pos hcap]
    exact hmid
  · rw [if_neg hcap]
    refine lockinv_reqLock s.nextId (Th.checkLocked s.nextId) _ hmid rfl
      (Nat.lt_succ_self _) ?_
    intro y hy hsome
    have hy2 : y ∈ allCont s := by
      refine ctx_mem_allCont hTh ?_
      have hy3 : y ∈ (t1 ++ t2)
          ++ (s.lockQueue ++ s.flockPending).map Prod.snd := hy
      rcases List.mem_append.1 hy3 with h1 | h1
      · rcases List.mem_append.1 h1 with h2 | h2
        · exact List.mem_append.2 (Or.inl h2)
        · exact List.mem_append.2 (Or.inr (List.mem_append.2 (Or.inl h2)))
      · exact List.mem_append.2 (Or.inr (List.mem_append.2 (Or.inr h1)))
    exact absurd (hi.freshLock y hy2 _ hsome) (lt_irrefl _)

/-- One turn of `checkLocked` (dequeue the head pending job and mark it
running, or unlock when nothing is pending) preserves the lock
invariant. -/
theorem lockinv_run_checkLocked (s : QState) (t1 t2 : List Th) (r : Nat)
    (out : WOutcome) (hi : LockInv s)
    (hTh : s.threads = t1 ++ Th.checkLocked r :: t2) :
    LockInv (runTh (Th.checkLocked r) out { s with threads := t1 ++ t2 }) := by
  have hmem : r ∈ s.holders :=
    hi.holdersWF _ (stepper_mem hTh) r rfl
  simp only [runTh]
  rcases hpend : s.pendingB with _ | ⟨j, rest⟩
  · refine lockinv_unlockQ _ _ _ ?_ ?_ ?_
    · refine lockinv_replace ([] : List Th) ([] : List Event) hi hTh ?_
        (Or.inr rfl) (List.append_nil _).symm rfl rfl rfl (le_refl _)
        (List.append_nil _).symm ?_
      · intro y hy
        exact absurd hy (List.not_mem_nil y)
      · intro e he
        exact absurd he (List.not_mem_nil e)
    · intro y hy
      exact absurd hy (List.not_mem_nil y)
    · intro y hy
      have hy2 : y ∈ t1 ++ t2 := hy
      exact ctx_lockId_ne hi hTh rfl hy2
  · refine lockinv_replace
      [Th.checkSaveRunning r { j with status := JobStatus.running }]
      [⟨.checkOp, .idFolder, false, j.id, JobStatus.running, some r,
        heldNow s (some r), s.lockedBy⟩]
      hi hTh ?_ (Or.inl rfl) rfl rfl rfl rfl (le_refl _) rfl ?_
    · intro y hy
      rw [List.mem_singleton.1 hy]
      rfl
    · intro e he hop
      rw [List.mem_singleton.1 he]
      refine ⟨rfl, ?_⟩
      show heldNow s (some r) = true
      simp only [heldNow]
      exact decide_eq_true hmem

/-- One turn of `checkSaveRunning` preserves the lock invariant. -/
theorem lockinv_run_checkSaveRunning (s : QState) (t1 t2 : List Th)
    (r : Nat) (j : Job) (out : WOutcome) (hi : LockInv s)
    (hTh : s.threads = t1 ++ Th.checkSaveRunning r j :: t2) :
    LockInv (runTh (Th.checkSaveRunning r j) out
      { s with threads := t1 ++ t2 }) := by
  have hmem : r ∈ s.holders :=
    hi.holdersWF _ (stepper_mem hTh) r rfl
  refine lockinv_replace [Th.checkRemovePending r j]
    [⟨.checkOp, .runningFolder, false, j.id, j.status, some r,
      heldNow s (some r), s.lockedBy⟩]
    hi hTh ?_ (Or.inl rfl) rfl rfl rfl rfl (le_refl _) rfl ?_
  · intro y hy
    rw [List.mem_singleton.1 hy]
    rfl
  · intro e he hop
    rw [List.mem_singleton.1 he]
    refine ⟨rfl, ?_⟩
    show heldNow s (some r) = true
    simp only [heldNow]
    exact decide_eq_true hmem

/-- One turn of `checkRemovePending` (remove, unlock, dispatch — or unlock
and stop when the removal failed) preserves the lock invariant. -/
theorem lockinv_run_checkRemovePending (s : QState) (t1 t2 : List Th)
    (r : Nat) (j : Job) (out : WOutcome) (hi : LockInv s)
    (hTh : s.threads = t1 ++ Th.checkRemovePending r j :: t2) :
    LockInv (runTh (Th.checkRemovePending r j) out
      { s with threads := t1 ++ t2 }) := by
  have hmem : r ∈ s.holders :=
    hi.holdersWF _ (stepper_mem hTh) r rfl
  simp only [runTh]
  rcases hrm : removeTaskFromFolder s.pendingB (some j) with ⟨eo, pb⟩
  cases eo with
  | none =>
      refine lockinv_unlockQ _ _ _ ?_ ?_ ?_
      · refine lockinv_replace ([] : List Th)
          [⟨.checkOp, .pendingFolder, true, j.id, j.status, some r,
            heldNow s (some r), s.lockedBy⟩]
          hi hTh ?_ (Or.inr rfl) (List.append_nil _).symm rfl rfl rfl
          (le_refl _) rfl ?_
        · intro y hy
          exact absurd hy (List.not_mem_nil y)
        · intro e he hop
          rw [List.mem_singleton.1 he]
          refine ⟨rfl, ?_⟩
          show heldNow s (some r) = true
          simp only [heldNow]
          exact decide_eq_true hmem
      · intro y hy
        rw [List.mem_singleton.1 hy]
        rfl
      · intro y hy
        have hy2 : y ∈ t1 ++ t2 := hy
        exact ctx_lockId_ne hi hTh rfl hy2
  | some e =>
      refine lockinv_unlockQ _ _ _ ?_ ?_ ?_
      · refine lockinv_replace ([] : List Th) ([] : List Event) hi hTh ?_
          (Or.inr rfl) (List.append_nil _).symm rfl rfl rfl (le_refl _)
          (List.append_nil _).symm ?_
        · intro y hy
          exact absurd hy (List.not_mem_nil y)
        · intro e2 he2
          exact absurd he2 (List.not_mem_nil e2)
      · intro y hy
        exact absurd hy (List.not_mem_nil y)
      · intro y hy
        have hy2 : y ∈ t1 ++ t2 := hy
        exact ctx_lockId_ne hi hTh rfl hy2

/-- The worker-completion turn of `runTask` preserves the lock invariant. -/
theorem lockinv_run_workerWait (s : QState) (t1 t2 : List Th) (j : Job)
    (out : WOutcome) (hi : LockInv s)
    (hTh : s.threads = t1 ++ Th.workerWait j :: t2) :
    LockInv (runTh (Th.workerWait j) out { s with threads := t1 ++ t2 }) := by
  refine lockinv_replace [Th.runRemoveRunning (applyWorkerOutcome j out)]
    [⟨.runOp, .idFolder, false, (applyWorkerOutcome j out).id,
      (applyWorkerOutcome j out).status, none, heldNow s none, s.lockedBy⟩]
    hi hTh ?_ (Or.inr rfl) rfl rfl rfl rfl (le_refl _) rfl ?_
  · intro y hy
    rw [List.mem_singleton.1 hy]
    rfl
  · intro e he hop
    rw [List.mem_singleton.1 he] at hop
    rcases hop with hA | hA <;> simp at hA

/-- The `running`-bucket removal turn of `runTask` preserves the lock
invariant. -/
theorem lockinv_run_runRemoveRunning (s : QState) (t1 t2 : List Th)
    (j : Job) (out : WOutcome) (hi : LockInv s)
    (hTh : s.threads = t1 ++ Th.runRemoveRunning j :: t2) :
    LockInv (runTh (Th.runRemoveRunning j) out
      { s with threads := t1 ++ t2 }) := by
  simp only [runTh]
  rcases hrm : removeTaskFromFolder s.runningB (some j) with ⟨eo, rb⟩
  cases eo with
  | none =>
      refine lockinv_replace [Th.checkEntry]
        [⟨.runOp, .runningFolder, true, j.id, j.status, none,
          heldNow s none, s.lockedBy⟩]
        hi hTh ?_ (Or.inr rfl) rfl rfl rfl rfl (le_refl _) rfl ?_
      · intro y hy
        rw [List.mem_singleton.1 hy]
        rfl
      · intro e he hop
        rw [List.mem_singleton.1 he] at hop
        rcases hop with hA | hA <;> simp at hA
  | some e =>
      refine lockinv_replace [Th.checkEntry] ([] : List Event)
        hi hTh ?_ (Or.inr rfl) rfl rfl rfl rfl (le_refl _)
        (List.append_nil _).symm ?_
      · intro y hy
        rw [List.mem_singleton.1 hy]
        rfl
      · intro e2 he2
        exact absurd he2 (List.not_mem_nil e2)

/-- Every step of the queue semantics preserves the lock invariant. -/
theorem lockinv_step {s s2 : QState} (h : Step s s2) (hi : LockInv s) :
    LockInv s2 := by
  cases h with
  | push p s => exact lockinv_doPush p s hi
  | flock i err s => exact lockinv_flock i err s hi
  | run s t1 t2 th out hTh =>
      cases th with
      | pushSaveId j => exact lockinv_run_pushSaveId s t1 t2 j out hi hTh
      | pushSavePending j =>
          exact lockinv_run_pushSavePending s t1 t2 j out hi hTh
      | checkEntry => exact lockinv_run_checkEntry s t1 t2 out hi hTh
      | checkLocked r => exact lockinv_run_checkLocked s t1 t2 r out hi hTh
      | checkSaveRunning r j =>
          exact lockinv_run_checkSaveRunning s t1 t2 r j out hi hTh
      | checkRemovePending r j =>
          exact lockinv_run_checkRemovePending s t1 t2 r j out hi hTh
      | workerWait j => exact lockinv_run_workerWait s t1 t2 j out hi hTh
      | runRemoveRunning j =>
          exact lockinv_run_runRemoveRunning s t1 t2 j out hi hTh

/-- Every reachable state satisfies the lock invariant. -/
theorem reaches_lockinv {m : Int} {s : QState} (h : Reaches m s) :
    LockInv s := by
  unfold Reaches at h
  induction h with
  | refl => exact lockinv_init m
  | tail _ hstep ih => exact lockinv_step hstep ih

/-! ## Claim theorems -/

/-- C1: the claimed invariant "the number of Jobs simultaneously in
`running` never exceeds `maxItems` when `maxItems > 0`" fails on the code:
`checkNextTask` tests the cap only at entry, before waiting for the lock,
and never re-tests it after the grant.  With `maxItems = 1`, two pushes
followed by their two deferred `checkNextTask` invocations (both of which
pass the cap test while nothing is running; the second's lock request
queues behind the first's grant and is handed the lock by the first's
unlock) reach a state with two jobs in `running` at once. -/
theorem c1_cap_exceeded :
    Reaches 1 (execCmds (initQ 1) c1Trace) ∧
    (execCmds (initQ 1) c1Trace).maxItems = 1 ∧
    (execCmds (initQ 1) c1Trace).runningTasks.length = 2 := by
  exact ⟨execCmds_reach _ _, by decide, by decide⟩

/-- C2 (counterexample): the claim "no store write or removal occurs outside
a Lock acquire/release pair" is false: the worker-completion turn of
`runTask` writes the terminal record to the index without any lock identity
at all — it never acquires the Lock — and it can run while the Lock is not
held by anyone: the reachable state below has an index write performed by
`runTask` with no owner, no holding, and the mutex free. -/
theorem c2_unlocked_write_counterexample :
    Reaches 1 (execCmds (initQ 1) c2Trace) ∧
    ∃ e ∈ (execCmds (initQ 1) c2Trace).log,
      e.op = OpKind.runOp ∧ e.bucket = BucketName.idFolder ∧
      e.isRemove = false ∧ e.owner = none ∧ e.ownerHeld = false ∧
      e.lockHeld = none := by
  exact ⟨execCmds_reach _ _, by decide⟩

/-- C2 (amended): `push` and `checkNextTask` perform every store mutation
under a granted, not-yet-released Lock acquisition of their own: each of
their logged writes and removals carries the mutating operation's lock
identity, and that identity is among the granted, not-yet-released holders
at the moment of the mutation (under the `FileMutex` double-grant defect
that holding need not be exclusive).  `runTask`'s completion bookkeeping,
by contrast, acquires nothing (its counterexample above). -/
theorem c2_push_check_mutations_locked (m : Int) (s : QState)
    (h : Reaches m s) :
    ∀ e ∈ s.log, e.op = OpKind.pushOp ∨ e.op = OpKind.checkOp →
      e.owner.isSome = true ∧ e.ownerHeld = true :=
  (reaches_lockinv h).eventsOk

/-- C2 witness: the amended theorem applied to the concrete reachable state
of `c2Trace` — every `push`/`checkNextTask` mutation in that run carries a
held owner. -/
theorem c2_push_check_mutations_locked_witness :
    ((execCmds (initQ 1) c2Trace).log.all (fun e =>
      !(e.op == OpKind.pushOp || e.op == OpKind.checkOp)
        || (e.owner.isSome && e.ownerHeld))) = true := by
  rw [List.all_eq_true]
  intro e he
  by_cases hop : e.op = OpKind.pushOp ∨ e.op = OpKind.checkOp
  · obtain ⟨h1, h2⟩ := c2_push_check_mutations_locked 1
      (execCmds (initQ 1) c2Trace) (execCmds_reach _ _) e he hop
    rw [h1, h2]
    simp
  · push_neg at hop
    simp [hop.1, hop.2]

/-- C3: the claimed status monotonicity ("the sequence of statuses a Job's
index record takes is a prefix of `pending -> running -> terminal`, never
revisiting or repeating a stage") fails on the code, as a consequence of
the `FileMutex` double-grant defect: two `checkNextTask` invocations that
request the mutex in the same flock window are both granted, both dequeue
the same head of the pending bucket, and each writes `status = "running"`
to the job's index record — the job's index history becomes
`[pending, running, running]` (rejected by `okHist`, the claim's reading of
the lifecycle) and the job sits twice in `runningTasks`. -/
theorem c3_double_dequeue_history :
    Reaches 1 (execCmds (initQ 1) c3Trace) ∧
    idxWrites (execCmds (initQ 1) c3Trace).log 1
      = [JobStatus.pending, JobStatus.running, JobStatus.running] ∧
    okHist (idxWrites (execCmds (initQ 1) c3Trace).log 1) = false ∧
    (execCmds (initQ 1) c3Trace).runningTasks.map Job.id = [1, 1] := by
  exact ⟨execCmds_reach _ _, by decide, by decide, by decide⟩

/-- C4: the claim "no two owners are active simultaneously" fails on the
file-backed mutex: `FileMutex.lock` sets `lockedBy` only inside the
asynchronous `fs.flock` callback, so two lock requests arriving before the
first callback fires both find `lockedBy` empty, both issue a flock (the
second succeeds too, the descriptor already holds the file lock), and both
callbacks run — two holders are active at once and `lockedBy` is silently
overwritten. -/
theorem c4_filemutex_double_grant :
    (FileMutex.run FileMutex.init
      [FMEvent.lockReq "a", FMEvent.lockReq "b",
       FMEvent.flockDone "a" false, FMEvent.flockDone "b" false]).holders
      = ["a", "b"] ∧
    (FileMutex.run FileMutex.init
      [FMEvent.lockReq "a", FMEvent.lockReq "b",
       FMEvent.flockDone "a" false, FMEvent.flockDone "b" false]).lockedBy
      = some "b" := by
  exact ⟨rfl, rfl⟩

/-- C5: for both mutexes, an unlock by an identity that is not the current
holder returns an `InternalError` and leaves the whole lock state (holder
and waiter queue) unchanged — the throw happens before any mutation. -/
theorem c5_unlock_nonowner (m : Mutex) (fm : FileMutex) (id id2 : String)
    (h : m.lockedBy ≠ some id) (h2 : fm.lockedBy ≠ some id2) :
    (m.unlock id).1.isSome = true ∧ (m.unlock id).2 = m ∧
    (fm.unlock id2).1.isSome = true ∧ (fm.unlock id2).2 = fm := by
  simp [Mutex.unlock, FileMutex.unlock, h, h2]

/-- C5 witness. -/
theorem c5_unlock_nonowner_witness :
    ((Mutex.unlock ⟨some "a", ["w"]⟩ "b").1.isSome = true ∧
     (Mutex.unlock ⟨some "a", ["w"]⟩ "b").2 = ⟨some "a", ["w"]⟩ ∧
     (FileMutex.unlock ⟨true, some "a", ["w"], [], ["a"]⟩ "b").1.isSome
        = true ∧
     (FileMutex.unlock ⟨true, some "a", ["w"], [], ["a"]⟩ "b").2
        = ⟨true, some "a", ["w"], [], ["a"]⟩) :=
  c5_unlock_nonowner ⟨some "a", ["w"]⟩ ⟨true, some "a", ["w"], [], ["a"]⟩
    "b" "b" (by decide) (by decide)

/-- C6: `push` with an absent `params` raises a `ParamError` synchronously
and leaves the entire queue state — buckets, in-memory lists, mutex,
counter and log — unchanged: the throw precedes task creation. -/
theorem c6_push_no_params (s : QState) :
    pushCall none s
      = (some (QErr.paramError "Invalid empty build task received"), s) :=
  rfl

/-- C7: the terminal record written by `runTask`'s completion handler:
worker failures yield `status = failure`, `error` the stringified error and
`errorCode` 400 for parameter-class, 503 for third-party (proxy), 500
otherwise; success yields `status = success` with the result attached when
one was returned; `dateFinished` is set on every terminal transition. -/
theorem c7_terminal_record (t : Job) (msg : String) (r : Nat) :
    (applyWorkerOutcome t (.error (.param msg))).status = .failure ∧
    (applyWorkerOutcome t (.error (.param msg))).errorCode = some 400 ∧
    (applyWorkerOutcome t (.error (.param msg))).error
      = some (WorkerErr.str (.param msg)) ∧
    (applyWorkerOutcome t (.error (.param msg))).dateFinished = true ∧
    (applyWorkerOutcome t (.error (.proxy msg))).status = .failure ∧
    (applyWorkerOutcome t (.error (.proxy msg))).errorCode = some 503 ∧
    (applyWorkerOutcome t (.error (.proxy msg))).error
      = some (WorkerErr.str (.proxy msg)) ∧
    (applyWorkerOutcome t (.error (.proxy msg))).dateFinished = true ∧
    (applyWorkerOutcome t (.error (.other msg))).status = .failure ∧
    (applyWorkerOutcome t (.error (.other msg))).errorCode = some 500 ∧
    (applyWorkerOutcome t (.error (.other msg))).error
      = some (WorkerErr.str (.other msg)) ∧
    (applyWorkerOutcome t (.error (.other msg))).dateFinished = true ∧
    (applyWorkerOutcome t (.ok (some r))).status = .success ∧
    (applyWorkerOutcome t (.ok (some r))).result = some r ∧
    (applyWorkerOutcome t (.ok (some r))).dateFinished = true ∧
    (applyWorkerOutcome t (.ok none)).status = .success ∧
    (applyWorkerOutcome t (.ok none)).dateFinished = true := by
  refine ⟨rfl, rfl, rfl, rfl, rfl, rfl, rfl, rfl, rfl, rfl, rfl, rfl,
    rfl, rfl, rfl, rfl, rfl⟩

/-- C8 (counterexample): the claim "a missing file is not an error" is
false: removing a job whose record is absent from the bucket makes
`fs.unlink` fail, and `removeTaskFromFolder` reports that failure to its
callback as an `InternalError` instead of succeeding. -/
theorem c8_remove_missing_counterexample :
    removeTaskFromFolder []
        (some { id := 1, params := 0, status := JobStatus.pending })
      = (some (QErr.internalError "Could not save task to file"), []) :=
  rfl

/-- C8 (amended): for every bucket and job whose record is absent from that
bucket, `removeTaskFromFolder` reports an `InternalError` to its callback
and leaves the bucket unchanged — a missing file is an error on this path
(only an absent task argument is a silent no-op). -/
theorem c8_remove_missing_errors (bucket : List Job) (j : Job)
    (h : bucket.any (fun x => x.id == j.id) = false) :
    removeTaskFromFolder bucket (some j)
      = (some (QErr.internalError "Could not save task to file"), bucket) := by
  simp [removeTaskFromFolder, h]

/-- C8 witness. -/
theorem c8_remove_missing_errors_witness :
    removeTaskFromFolder
        [{ id := 2, params := 0, status := JobStatus.pending }]
        (some { id := 1, params := 0, status := JobStatus.pending })
      = (some (QErr.internalError "Could not save task to file"),
         [{ id := 2, params := 0, status := JobStatus.pending }]) :=
  c8_remove_missing_errors _ _ (by decide)

/-- C9 (counterexample): the claim "a second acquisition by the owner is
accepted as a no-op and completes without waiting" is false: in both
mutexes, a lock request finding `lockedBy` set — even set to the caller
itself — is appended to the wait queue and its callback is not scheduled
(the in-process mutex returns it as not granted; the file mutex queues the
request without issuing a flock). -/
theorem c9_reentrant_queued_counterexample :
    Mutex.lock ⟨some "a", []⟩ "a" = (⟨some "a", ["a"]⟩, false) ∧
    FileMutex.lockReq ⟨true, some "a", [], [], ["a"]⟩ "a"
      = ⟨true, some "a", ["a"], [], ["a"]⟩ := by
  exact ⟨rfl, rfl⟩

/-- C9 (amended): a re-entrant acquisition by the current owner is accepted
without error, but it is not a no-op: the request is queued like any other
waiter and completes only after a release — for both the in-process and the
file-backed mutex, the call appends the owner to the wait queue and grants
nothing. -/
theorem c9_reentrant_queued (m : Mutex) (fm : FileMutex) (id id2 : String)
    (h : m.lockedBy = some id) (h2 : fm.lockedBy = some id2) :
    Mutex.lock m id = ({ m with queue := m.queue ++ [id] }, false) ∧
    FileMutex.lockReq fm id2 = { fm with queue := fm.queue ++ [id2] } := by
  simp [Mutex.lock, FileMutex.lockReq, h, h2]

/-- C9 witness. -/
theorem c9_reentrant_queued_witness :
    (Mutex.lock ⟨some "a", ["w"]⟩ "a" = (⟨some "a", ["w", "a"]⟩, false) ∧
     FileMutex.lockReq ⟨true, some "b", [], [], ["b"]⟩ "b"
        = ⟨true, some "b", ["b"], [], ["b"]⟩) :=
  c9_reentrant_queued ⟨some "a", ["w"]⟩ ⟨true, some "b", [], [], ["b"]⟩
    "a" "b" rfl rfl

/-- C10: when the current holder unlocks while waiters are queued, both
mutexes hand ownership to the earliest waiter within the same synchronous
unlock turn — the post-state's holder is the queue head (its callback is
scheduled after ownership is already transferred), so the lock is never
observable unheld while waiters remain, and a late lock request against the
post-state is queued rather than granted. -/
theorem c10_unlock_hands_to_earliest (m : Mutex) (fm : FileMutex)
    (id id2 next next2 : String) (rest rest2 : List String)
    (h : m.lockedBy = some id) (hq : m.queue = next :: rest)
    (h2 : fm.lockedBy = some id2) (hq2 : fm.queue = next2 :: rest2) :
    m.unlock id = (none, ⟨some next, rest⟩) ∧
    (fm.unlock id2).1 = none ∧
    (fm.unlock id2).2.lockedBy = some next2 ∧
    (fm.unlock id2).2.queue = rest2 ∧
    (∀ z : String, (Mutex.lock ⟨some next, rest⟩ z).2 = false) ∧
    (∀ z : String,
      FileMutex.lockReq (fm.unlock id2).2 z
        = { (fm.unlock id2).2 with
            queue := (fm.unlock id2).2.queue ++ [z] }) := by
  refine ⟨?_, ?_, ?_, ?_, ?_, ?_⟩ <;>
    simp [Mutex.unlock, Mutex.lock, FileMutex.unlock, FileMutex.lockReq,
      h, hq, h2, hq2]

/-- C10 witness. -/
theorem c10_unlock_hands_to_earliest_witness :
    (Mutex.unlock ⟨some "a", ["w", "v"]⟩ "a" = (none, ⟨some "w", ["v"]⟩) ∧
     (FileMutex.unlock ⟨true, some "b", ["x", "y"], [], ["b"]⟩ "b").1
        = none ∧
     (FileMutex.unlock ⟨true, some "b", ["x", "y"], [], ["b"]⟩ "b").2.lockedBy
        = some "x" ∧
     (FileMutex.unlock ⟨true, some "b", ["x", "y"], [], ["b"]⟩ "b").2.queue
        = ["y"] ∧
     (∀ z : String, (Mutex.lock ⟨some "w", ["v"]⟩ z).2 = false) ∧
     (∀ z : String,
       FileMutex.lockReq
           (FileMutex.unlock ⟨true, some "b", ["x", "y"], [], ["b"]⟩ "b").2 z
         = { (FileMutex.unlock
                ⟨true, some "b", ["x", "y"], [], ["b"]⟩ "b").2 with
             queue := (FileMutex.unlock
                ⟨true, some "b", ["x", "y"], [], ["b"]⟩ "b").2.queue
                ++ [z] })) :=
  c10_unlock_hands_to_earliest ⟨some "a", ["w", "v"]⟩
    ⟨true, some "b", ["x", "y"], [], ["b"]⟩ "a" "b" "w" "x" ["v"] ["y"]
    rfl rfl rfl rfl
